import Mathlib

/-!
Verification of the request/response translation layer of `fhirpy/base/lib.py`:
URL construction and its security check, HTTP response classification, the
paginated iteration protocol, and the resource lifecycle (save/update/patch).
Python dictionaries are modelled as ordered association lists with
insert-or-replace update, JSON values as an inductive type together with a
parser mirroring `json.loads`, and exceptions as an explicit error type
threaded through `Except`.
-/

namespace FhirPy

/-! ## Ordered dictionaries (Python `dict` semantics) -/

/-- Assignment `d[k] = v` on a Python dict: replaces the value in place if the
key is present, otherwise appends the pair at the end. -/
def dictUpsert {α : Type} (d : List (String × α)) (k : String) (v : α) :
    List (String × α) :=
  match d with
  | [] => [(k, v)]
  | (k', v') :: rest =>
      if k' = k then (k, v) :: rest else (k', v') :: dictUpsert rest k v

/-- Merging `{**d, **e}` / `d.update(e)` on Python dicts: pairs of `e` are
assigned into `d` left to right, later pairs winning. -/
def dictUpdate {α : Type} (d e : List (String × α)) : List (String × α) :=
  e.foldl (fun acc kv => dictUpsert acc kv.1 kv.2) d

/-! ## JSON values -/

/-- JSON value as produced by `json.loads`.  Numeric literals keep their
lexeme, since no code under verification computes with numbers. -/
inductive Json where
  | null : Json
  | bool (b : Bool) : Json
  | num (lexeme : String) : Json
  | str (s : String) : Json
  | arr (items : List Json) : Json
  | obj (fields : List (String × Json)) : Json

/-- Lookup `d[k]` in an ordered dictionary (first match; dictionaries built by
`dictUpsert` have unique keys). -/
def dLookup {α : Type} (d : List (String × α)) (k : String) : Option α :=
  match d with
  | [] => none
  | (k', v) :: rest => if k' = k then some v else dLookup rest k

/-- Lookup of a key in a JSON object's field list. -/
def jLookup (fields : List (String × Json)) (k : String) : Option Json :=
  dLookup fields k

/-- Python truthiness of a JSON-shaped value (`None`, `False`, zero, and empty
containers/strings are falsy). -/
def jsonTruthy : Json → Bool
  | .null => false
  | .bool b => b
  | .num lexeme =>
      match lexeme.toList.filter Char.isDigit with
      | [] => true
      | ds => ! ds.all (· == '0')
  | .str s => s != ""
  | .arr items => ! items.isEmpty
  | .obj fields => ! fields.isEmpty

/-! ## JSON parsing (embedding of `json.loads` as used by `lib.py`) -/

/-- Whitespace accepted by the JSON grammar. -/
def isJsonWs (c : Char) : Bool :=
  c = ' ' || c = '\t' || c = '\n' || c = '\r'

/-- Drop leading JSON whitespace. -/
def skipWs : List Char → List Char
  | [] => []
  | c :: cs => if isJsonWs c then skipWs cs else c :: cs

/-- Value of a hexadecimal digit. -/
def hexVal (c : Char) : Option Nat :=
  if c.isDigit then some (c.toNat - 48)
  else if 'a' ≤ c ∧ c ≤ 'f' then some (c.toNat - 87)
  else if 'A' ≤ c ∧ c ≤ 'F' then some (c.toNat - 55)
  else none

/-- Body of a JSON string literal after the opening quote: returns the decoded
characters and the remainder after the closing quote. -/
def parseJStr (fuel : Nat) (l : List Char) : Option (List Char × List Char) :=
  match fuel, l with
  | 0, _ => none
  | _, [] => none
  | f + 1, c :: cs =>
    if c = '"' then some ([], cs)
    else if c = '\\' then
      match cs with
      | 'u' :: a :: b :: c2 :: d :: rest => do
          let ha ← hexVal a
          let hb ← hexVal b
          let hc ← hexVal c2
          let hd ← hexVal d
          let (s, r) ← parseJStr f rest
          some (Char.ofNat (((ha * 16 + hb) * 16 + hc) * 16 + hd) :: s, r)
      | e :: rest =>
          let ch? : Option Char :=
            if e = '"' then some '"'
            else if e = '\\' then some '\\'
            else if e = '/' then some '/'
            else if e = 'b' then some (Char.ofNat 8)
            else if e = 'f' then some (Char.ofNat 12)
            else if e = 'n' then some '\n'
            else if e = 'r' then some '\r'
            else if e = 't' then some '\t'
            else none
          match ch? with
          | some ch => (parseJStr f rest).map (fun p => (ch :: p.1, p.2))
          | none => none
      | [] => none
    else if c.toNat < 32 then none
    else (parseJStr f cs).map (fun p => (c :: p.1, p.2))

/-- Longest digit span at the head of the input. -/
def digitSpan (l : List Char) : List Char × List Char :=
  (l.takeWhile Char.isDigit, l.dropWhile Char.isDigit)

/-- Numeric literal: optional minus, integer part without leading zeros,
optional fraction and exponent; returns the lexeme and the remainder. -/
def parseNum (l : List Char) : Option (List Char × List Char) := do
  let (neg, l1) := match l with
    | '-' :: r => (['-'], r)
    | _ => ([], l)
  let (ip, l2) ← (match l1 with
    | '0' :: r => some (['0'], r)
    | c :: _ => if c.isDigit then some (digitSpan l1) else none
    | [] => none)
  let (fp, l3) := match l2 with
    | '.' :: r =>
        let (ds, r2) := digitSpan r
        if ds = [] then (([] : List Char), l2) else ('.' :: ds, r2)
    | _ => ([], l2)
  let (ep, l4) := match l3 with
    | e :: r =>
        if e = 'e' ∨ e = 'E' then
          let (sgn, r1) := match r with
            | s :: r2 => if s = '+' ∨ s = '-' then ([s], r2) else (([] : List Char), r)
            | [] => ([], r)
          let (ds, r2) := digitSpan r1
          if ds = [] then (([] : List Char), l3) else (e :: (sgn ++ ds), r2)
        else ([], l3)
    | [] => ([], l3)
  some (neg ++ ip ++ fp ++ ep, l4)

mutual

/-- One JSON value (leading whitespace allowed); returns the value and the
unconsumed remainder. -/
def parseValue (fuel : Nat) (l : List Char) : Option (Json × List Char) :=
  match fuel with
  | 0 => none
  | f + 1 =>
    match skipWs l with
    | '"' :: cs => (parseJStr f cs).map (fun p => (.str (String.mk p.1), p.2))
    | '{' :: cs =>
        match skipWs cs with
        | '}' :: r => some (.obj [], r)
        | r => parseMembers f r []
    | '[' :: cs => parseItems f cs []
    | 't' :: 'r' :: 'u' :: 'e' :: cs => some (.bool true, cs)
    | 'f' :: 'a' :: 'l' :: 's' :: 'e' :: cs => some (.bool false, cs)
    | 'n' :: 'u' :: 'l' :: 'l' :: cs => some (.null, cs)
    | 'N' :: 'a' :: 'N' :: cs => some (.num "NaN", cs)
    | 'I' :: 'n' :: 'f' :: 'i' :: 'n' :: 'i' :: 't' :: 'y' :: cs =>
        some (.num "Infinity", cs)
    | '-' :: 'I' :: 'n' :: 'f' :: 'i' :: 'n' :: 'i' :: 't' :: 'y' :: cs =>
        some (.num "-Infinity", cs)
    | other => (parseNum other).map (fun p => (.num (String.mk p.1), p.2))

/-- Members of a JSON object after `{` (first key expected next); duplicate
keys follow dict-assignment semantics (last value wins, first position kept). -/
def parseMembers (fuel : Nat) (l : List Char) (acc : List (String × Json)) :
    Option (Json × List Char) :=
  match fuel with
  | 0 => none
  | f + 1 =>
    match skipWs l with
    | '"' :: cs => do
        let (k, r1) ← parseJStr f cs
        match skipWs r1 with
        | ':' :: r2 => do
            let (v, r3) ← parseValue f r2
            let acc' := dictUpsert acc (String.mk k) v
            match skipWs r3 with
            | ',' :: r4 => parseMembers f r4 acc'
            | '}' :: r4 => some (.obj acc', r4)
            | _ => none
        | _ => none
    | _ => none

/-- Items of a JSON array after `[` (supports the empty array). -/
def parseItems (fuel : Nat) (l : List Char) (acc : List Json) :
    Option (Json × List Char) :=
  match fuel with
  | 0 => none
  | f + 1 =>
    match skipWs l with
    | ']' :: r => if acc.isEmpty then some (.arr [], r) else none
    | l' => do
        let (v, r) ← parseValue f l'
        match skipWs r with
        | ',' :: r2 => parseItems f r2 (acc ++ [v])
        | ']' :: r2 => some (.arr (acc ++ [v]), r2)
        | _ => none

end

/-- Embedding of `json.loads`: `some` of the parsed value on success, `none`
where Python raises `json.JSONDecodeError` (including trailing garbage and the
empty string). -/
def Json.decode (s : String) : Option Json :=
  match parseValue (s.length * 4 + 16) s.toList with
  | some (v, rest) => if skipWs rest = [] then some v else none
  | none => none

/-! ## Exceptions -/

/-- Exceptions the embedded code can raise.  `valueError` realises the spec's
`SecurityError`, `typeError` with the id-required message realises
`InvalidState`, `networkError` stands for a transport-level exception. -/
inductive PyErr where
  | resourceNotFound (body : String)
  | multipleResourcesFound (body : String)
  | operationOutcome (resource : Option Json) (reason : Option String)
  | jsonDecodeError
  | keyError (key : String)
  | typeError (msg : String)
  | valueError (msg : String)
  | assertionError
  | networkError

/-- Python subscript `j["k"]` on a decoded JSON value: `KeyError` on a dict
missing the key, `TypeError` on any non-dict value. -/
def pyGetItem : Json → String → Except PyErr Json
  | .obj fields, k =>
      match jLookup fields k with
      | some v => .ok v
      | none => .error (.keyError k)
  | .arr _, _ => .error (.typeError "list indices must be integers or slices, not str")
  | .str _, _ => .error (.typeError "string indices must be integers")
  | .null, _ => .error (.typeError "NoneType object is not subscriptable")
  | .bool _, _ => .error (.typeError "bool object is not subscriptable")
  | .num _, _ => .error (.typeError "number is not subscriptable")

/-! ## URL parsing (the fragment of `urllib.parse.urlparse` that `lib.py` uses) -/

/-- Characters terminating the netloc of a URL. -/
def urlStop (c : Char) : Bool := c = '/' || c = '?' || c = '#'

/-- Split a character list at the first character satisfying `p`: the part
before it, and (when found) the part after it. -/
def splitFirst (p : Char → Bool) (l : List Char) : List Char × Option (List Char) :=
  (l.takeWhile (fun c => ! p c),
   match l.dropWhile (fun c => ! p c) with
   | [] => none
   | _ :: r => some r)

/-- Split at the first occurrence of `c`; when `c` is absent the second part is
empty, which coincides with how `urllib` treats an absent `?` or `#`. -/
def splitAtChar (c : Char) (l : List Char) : List Char × List Char :=
  (l.takeWhile (· != c),
   match l.dropWhile (· != c) with
   | [] => []
   | _ :: r => r)

/-- Scheme validity test of `urllib`: a letter followed by letters, digits,
`+`, `-` or `.`. -/
def validScheme (cs : List Char) : Bool :=
  match cs with
  | [] => false
  | c :: rest => c.isAlpha && rest.all (fun x => x.isAlphanum || x == '+' || x == '-' || x == '.')

/-- Components of a parsed URL. -/
structure UrlParts where
  scheme : String
  netloc : String
  path : String
  query : String
  fragment : String
deriving DecidableEq

/-- Scheme extraction stage of `urlparse`: the lowercased text before the
first colon when it is a valid scheme, with the remainder. -/
def splitSchemeCs (l : List Char) : String × List Char :=
  match splitFirst (· == ':') l with
  | (cand, some r) =>
      if validScheme cand then (String.mk (cand.map Char.toLower), r)
      else ("", l)
  | (_, none) => ("", l)

/-- Netloc extraction stage of `urlparse`: after a leading `//`, the text up
to the first `/`, `?` or `#`. -/
def splitNetlocCs (l : List Char) : List Char × List Char :=
  match l with
  | '/' :: '/' :: r =>
      (r.takeWhile (fun c => ! urlStop c), r.dropWhile (fun c => ! urlStop c))
  | _ => ([], l)

/-- Embedding of `urllib.parse.urlparse` restricted to the components `lib.py`
reads (the legacy `;params` component is left inside the path). -/
def urlparse (s : String) : UrlParts :=
  let sr := splitSchemeCs s.toList
  let nr := splitNetlocCs sr.2
  let bf := splitAtChar '#' nr.2
  let pq := splitAtChar '?' bf.1
  ⟨sr.1, String.mk nr.1, String.mk pq.1, String.mk pq.2, String.mk bf.2⟩

/-- Port of a netloc as `urllib` computes it: the text after the first colon
of the host info (the part after the last `@`); numeric or absent. -/
def portOf (netloc : String) : Option Nat :=
  let hostinfo := (netloc.toList.reverse.takeWhile (· != '@')).reverse
  match splitFirst (· == ':') hostinfo with
  | (_, some a) =>
      if a ≠ [] ∧ a.all Char.isDigit then
        some (a.foldl (fun n c => n * 10 + (c.toNat - 48)) 0)
      else none
  | (_, none) => none

/-- Embedding of `yarl.URL(path).is_absolute()`: the URL has a host part. -/
def isAbsolute (s : String) : Bool := (urlparse s).netloc != ""

/-! ## Client and URL building -/

/-- Client identity (lib.py lines 30-38). -/
structure Client where
  url : String
  authorization : Option String
  extraHeaders : Option (List (String × String))

/-- Parameter maps, as an association list. -/
abbrev Params := List (String × String)

/-- Lexicographic order on character lists. -/
def listLe : List Char → List Char → Bool
  | [], _ => true
  | _ :: _, [] => false
  | a :: as, b :: bs => if a = b then listLe as bs else decide (a < b)

/-- Lexicographic order on strings. -/
def strLeB (a b : String) : Bool := listLe a.toList b.toList

/-- Insertion of a string into a sorted list. -/
def insertSorted (s : String) : List String → List String
  | [] => [s]
  | x :: xs => if strLeB s x then s :: x :: xs else x :: insertSorted s xs

/-- Sorting a list of strings. -/
def sortStrings (l : List String) : List String := l.foldr insertSorted []

/-- Modelled from the spec: `encode_params` from `fhirpy.base.utils` (not under
`src/`) renders the parameter map as the stable, sorted query string. -/
def encodeParams (ps : Params) : String :=
  String.intercalate "&" (sortStrings (ps.map (fun kv => kv.1 ++ "=" ++ kv.2)))

/-- Strip trailing slashes, Python `s.rstrip("/")`. -/
def rstripSlashes (s : String) : String :=
  String.mk (s.toList.reverse.dropWhile (· == '/')).reverse

/-- Strip leading slashes, Python `s.lstrip("/")`. -/
def lstripSlashes (s : String) : String :=
  String.mk (s.toList.dropWhile (· == '/'))

/-- Test whether `needle` occurs as a contiguous run inside `hay`. -/
def hasSubList (hay needle : List Char) : Bool :=
  needle.isPrefixOf hay ||
    match hay with
    | [] => false
    | _ :: t => hasSubList t needle

/-- Python substring test `needle in hay`. -/
def strContains (hay needle : String) : Bool :=
  hasSubList hay.toList needle.toList

/-- Modelled from the spec: `remove_prefix` from `fhirpy.base.utils` (not under
`src/`) strips `pre` from the start of `s` when present. -/
def stripLeadingPart (s pre : String) : String :=
  if pre.toList.isPrefixOf s.toList then String.mk (s.toList.drop pre.toList.length) else s

/-- Port-normalisation step of `AbstractClient._build_request_url` (lib.py
lines 94-99): when the base URL carries a truthy explicit port and the
absolute `path` has scheme `https` with no explicit port, `path` is rebuilt to
carry `:443`, re-appending the query and, when non-empty, the fragment. -/
def portNormalize (c : Client) (path : String) : String :=
  if (portOf (urlparse c.url).netloc).getD 0 ≠ 0 then
    let parsed := urlparse path
    if portOf parsed.netloc = none ∧ parsed.scheme = "https" then
      let p := parsed.scheme ++ "://" ++ parsed.netloc ++ ":443" ++ parsed.path
          ++ "?" ++ parsed.query
      if parsed.fragment ≠ "" then p ++ "#" ++ parsed.fragment else p
    else path
  else path

/-- Embedding of `AbstractClient._build_request_url` (lib.py lines 92-111);
`valueError` realises the spec's `SecurityError`. -/
def buildRequestUrl (c : Client) (path : String) (params : Option Params) :
    Except PyErr String :=
  if isAbsolute path then
    let p := portNormalize c path
    if strContains (rstripSlashes p) (rstripSlashes c.url) then .ok p
    else .error (.valueError ("Request url \"" ++ p ++ "\" does not contain base url \""
        ++ c.url ++ "\" (possible security issue)"))
  else
    let p1 := lstripSlashes path
    let basePath := lstripSlashes (urlparse c.url).path ++ "/"
    let p2 := stripLeadingPart p1 basePath
    .ok (rstripSlashes c.url ++ "/" ++ lstripSlashes p2 ++ "?" ++ encodeParams (params.getD []))

/-! ## Headers and requests -/

/-- Embedding of `AbstractClient._build_request_headers` (lib.py lines 81-90). -/
def buildRequestHeaders (c : Client) : List (String × String) :=
  let headers := [("Accept", "application/fhir+json")]
  let headers :=
    match c.authorization with
    | some a => if a ≠ "" then dictUpsert headers "Authorization" a else headers
    | none => headers
  match c.extraHeaders with
  | some extra => dictUpdate headers extra
  | none => headers

/-- Header set the blocking client sends (lib.py lines 172-175): `Content-Type`
is forced to `application/fhir+json` for every method and then overridden for
the exact method string `"patch"`. -/
def syncHeaders (c : Client) (method : String) : List (String × String) :=
  let h := dictUpsert (buildRequestHeaders c) "Content-Type" "application/fhir+json"
  if method = "patch" then dictUpsert h "Content-Type" "application/json-patch+json" else h

/-- Header set the deferred client sends (lib.py lines 126-129): no
`Content-Type` is added except for the exact method string `"patch"`. -/
def asyncHeaders (c : Client) (method : String) : List (String × String) :=
  let h := buildRequestHeaders c
  if method = "patch" then dictUpsert h "Content-Type" "application/json-patch+json" else h

/-- One transport request as handed to `requests`/`aiohttp`. -/
structure Request where
  method : String
  url : String
  headers : List (String × String)
  body : Option Json

/-- One transport response. -/
structure HttpResponse where
  status : Nat
  body : String

/-- Deferred-mode transport; an `error` result is a transport-level exception. -/
abbrev Transport := Request → Except Unit HttpResponse

/-- Blocking-mode transport; the first argument is the caller-supplied session
the call goes through, if any. -/
abbrev SyncTransport := Option Nat → Request → Except Unit HttpResponse

/-- Value `_do_request` returns: the decoded body, with the status code when
`returning_status` was requested. -/
inductive DoResult where
  | plain (body : Option Json)
  | withStatus (body : Option Json) (status : Nat)

/-- Packaging of the decoded body per the `returning_status` flag. -/
def mkDoResult (returningStatus : Bool) (body : Option Json) (status : Nat) : DoResult :=
  if returningStatus then .withStatus body status else .plain body

/-! ## Response classification -/

/-- Response classification, shared word for word by `SyncClient._do_request`
(lib.py lines 188-205) and `AsyncClient._do_request` (lib.py lines 132-150). -/
def classifyResponse (status : Nat) (body : String) (returningStatus : Bool) :
    Except PyErr DoResult :=
  if 200 ≤ status ∧ status < 300 then
    if body = "" then .ok (mkDoResult returningStatus none status)
    else
      match Json.decode body with
      | some j => .ok (mkDoResult returningStatus (some j) status)
      | none => .error .jsonDecodeError
  else if status = 404 ∨ status = 410 then .error (.resourceNotFound body)
  else if status = 412 then .error (.multipleResourcesFound body)
  else
    match Json.decode body with
    | none => .error (.operationOutcome none (some body))
    | some parsed =>
        match pyGetItem parsed "resourceType" with
        | .error (.keyError _) => .error (.operationOutcome none (some body))
        | .error e => .error e
        | .ok v =>
            match v with
            | .str s =>
                if s = "OperationOutcome" then .error (.operationOutcome (some parsed) none)
                else .error (.operationOutcome none (some body))
            | _ => .error (.operationOutcome none (some body))

/-- Request the blocking `_do_request` submits: method, URL from
`_build_request_url`, blocking-mode headers, `json=data` body. -/
def syncBuildRequest (c : Client) (method path : String) (data : Option Json)
    (params : Option Params) : Except PyErr Request :=
  (buildRequestUrl c path params).map (fun url => ⟨method, url, syncHeaders c method, data⟩)

/-- Request the deferred `_do_request` submits. -/
def asyncBuildRequest (c : Client) (method path : String) (data : Option Json)
    (params : Option Params) : Except PyErr Request :=
  (buildRequestUrl c path params).map (fun url => ⟨method, url, asyncHeaders c method, data⟩)

/-- Transport configuration of the blocking client; only the caller-supplied
session is observable to the embedded logic. -/
structure RequestsConfig where
  session : Option Nat

/-- Embedding of `SyncClient._do_request` (lib.py lines 171-205): pop the
caller-supplied session, perform the transport call through it (or through the
module-level transport), re-add the session after the call returns, then
classify.  A transport-level exception propagates before the session is
re-added, so the session stays popped in that case. -/
def syncDoRequest (c : Client) (cfg : RequestsConfig) (t : SyncTransport)
    (method path : String) (data : Option Json) (params : Option Params)
    (returningStatus : Bool) : Except PyErr DoResult × RequestsConfig :=
  match syncBuildRequest c method path data params with
  | .error e => (.error e, cfg)
  | .ok req =>
      match cfg.session with
      | some s =>
          match t (some s) req with
          | .error _ => (.error .networkError, ⟨none⟩)
          | .ok r => (classifyResponse r.status r.body returningStatus, ⟨some s⟩)
      | none =>
          match t none req with
          | .error _ => (.error .networkError, ⟨none⟩)
          | .ok r => (classifyResponse r.status r.body returningStatus, ⟨none⟩)

/-- Embedding of `AsyncClient._do_request` (lib.py lines 125-150). -/
def asyncDoRequest (c : Client) (t : Transport) (method path : String)
    (data : Option Json) (params : Option Params) (returningStatus : Bool) :
    Except PyErr DoResult :=
  match asyncBuildRequest c method path data params with
  | .error e => .error e
  | .ok req =>
      match t req with
      | .error _ => .error .networkError
      | .ok r => classifyResponse r.status r.body returningStatus

/-! ## Resource lifecycle -/

/-- Resource container: ordered field map. -/
abbrev Container := List (String × Json)

/-- Modelled from the spec: `serialize()` of the external resource container
(`fhirpy.base.resource`, not under `src/`) returns the current field set as a
plain JSON value. -/
def serialize (r : Container) : Json := .obj r

/-- Modelled from the spec: attribute access `self.id` on the container. -/
def resIdOf (r : Container) : Option Json := jLookup r "id"

/-- Python truthiness of `self.id`. -/
def idTruthy (r : Container) : Bool :=
  match resIdOf r with
  | some v => jsonTruthy v
  | none => false

/-- Display of a JSON scalar as Python string formatting would give it. -/
def pyStr : Json → String
  | .str s => s
  | .num l => l
  | .bool true => "True"
  | .bool false => "False"
  | .null => "None"
  | .arr _ => "[...]"
  | .obj _ => "dict"

/-- Modelled from the spec: `resource_type` attribute of the container. -/
def resourceTypeOf (r : Container) : String :=
  match jLookup r "resourceType" with
  | some (.str s) => s
  | _ => ""

/-- Modelled from the spec: `_get_path()` of the resource container is
`resourceType/id` when `id` is set and `resourceType` otherwise. -/
def getPath (r : Container) : String :=
  if idTruthy r then resourceTypeOf r ++ "/" ++ pyStr ((resIdOf r).getD .null)
  else resourceTypeOf r

/-- Message of the `TypeError` raised by `save`/`update` without an id. -/
def idRequiredMsg : String := "Resource `id` is required for update operation"

/-- Python truthiness of the `fields` argument of `save`. -/
def fieldsTruthy : Option (List String) → Bool
  | some fs => ! fs.isEmpty
  | none => false

/-- JSON-Patch operations `SyncResource.save` builds from a field filter, one
per requested key in order (lib.py lines 409-419); `data[key]` raises
`KeyError` at the first missing field. -/
def syncFieldOps (r : Container) : List String → Except PyErr (List Json)
  | [] => .ok []
  | key :: rest =>
      match jLookup r key with
      | none => .error (.keyError key)
      | some v =>
          (syncFieldOps r rest).map
            (fun ops =>
              Json.obj [("op", .str "add"), ("path", .str ("/" ++ key)), ("value", v)] :: ops)

/-- Body of the blocking `save` with a field filter: the JSON-Patch list. -/
def syncFieldBody (r : Container) (fields : List String) : Except PyErr Json :=
  (syncFieldOps r fields).map Json.arr

/-- Key-value pairs of the dict comprehension in `AsyncResource.save`
(lib.py line 478). -/
def asyncFieldPairs (r : Container) : List String → Except PyErr (List (String × Json))
  | [] => .ok []
  | key :: rest =>
      match jLookup r key with
      | none => .error (.keyError key)
      | some v => (asyncFieldPairs r rest).map ((key, v) :: ·)

/-- Body of the deferred `save` with a field filter: the partial object. -/
def asyncFieldBody (r : Container) (fields : List String) : Except PyErr Json :=
  (asyncFieldPairs r fields).map (fun ps => Json.obj (dictUpdate [] ps))

/-- Method and body `SyncResource.save` chooses (lib.py lines 404-422). -/
def syncSavePlan (r : Container) (fields : Option (List String)) :
    Except PyErr (String × Json) :=
  if fieldsTruthy fields then
    if ¬ idTruthy r then .error (.typeError idRequiredMsg)
    else (syncFieldBody r (fields.getD [])).map (fun body => ("patch", body))
  else .ok (if idTruthy r then "put" else "post", serialize r)

/-- Method and body `AsyncResource.save` chooses (lib.py lines 473-481). -/
def asyncSavePlan (r : Container) (fields : Option (List String)) :
    Except PyErr (String × Json) :=
  if fieldsTruthy fields then
    if ¬ idTruthy r then .error (.typeError idRequiredMsg)
    else (asyncFieldBody r (fields.getD [])).map (fun body => ("patch", body))
  else .ok (if idTruthy r then "put" else "post", serialize r)

/-- Modelled from the spec: `client.resource(resource_type, **response_data)`
followed by `clear()` and `update(...)` replaces the container fields with
`resourceType` plus the response fields (lib.py lines 426-430). -/
def applyServerState (rt : String) (resp : Json) : Except PyErr Container :=
  match resp with
  | .obj fs => .ok (dictUpdate [("resourceType", .str rt)] fs)
  | _ => .error (.typeError "argument after ** must be a mapping")

/-- Body of the returned `DoResult`. -/
def DoResult.bodyOf : DoResult → Option Json
  | .plain b => b
  | .withStatus b _ => b

/-- Embedding of `SyncResource.save` (lib.py lines 404-430): the returned
container is replaced by the server response when the response body is truthy. -/
def syncSave (c : Client) (cfg : RequestsConfig) (t : SyncTransport) (r : Container)
    (fields : Option (List String)) (searchParams : Option Params) :
    Except PyErr Container × RequestsConfig :=
  match syncSavePlan r fields with
  | .error e => (.error e, cfg)
  | .ok mb =>
      match syncDoRequest c cfg t mb.1 (getPath r) (some mb.2) searchParams false with
      | (.error e, cfg') => (.error e, cfg')
      | (.ok res, cfg') =>
          match res.bodyOf with
          | some j =>
              if jsonTruthy j then
                match applyServerState (resourceTypeOf r) j with
                | .ok r' => (.ok r', cfg')
                | .error e => (.error e, cfg')
              else (.ok r, cfg')
          | none => (.ok r, cfg')

/-- Embedding of `AsyncResource.save` (lib.py lines 473-490). -/
def asyncSave (c : Client) (t : Transport) (r : Container)
    (fields : Option (List String)) (searchParams : Option Params) :
    Except PyErr Container :=
  match asyncSavePlan r fields with
  | .error e => .error e
  | .ok mb =>
      match asyncDoRequest c t mb.1 (getPath r) (some mb.2) searchParams false with
      | .error e => .error e
      | .ok res =>
          match res.bodyOf with
          | some j =>
              if jsonTruthy j then
                match applyServerState (resourceTypeOf r) j with
                | .ok r' => .ok r'
                | .error e => .error e
              else .ok r
          | none => .ok r

/-- Embedding of `SyncResource.update` (lib.py lines 436-439). -/
def syncUpdate (c : Client) (cfg : RequestsConfig) (t : SyncTransport) (r : Container) :
    Except PyErr Container × RequestsConfig :=
  if ¬ idTruthy r then (.error (.typeError idRequiredMsg), cfg)
  else syncSave c cfg t r none none

/-- Embedding of `AsyncResource.update` (lib.py lines 496-499). -/
def asyncUpdate (c : Client) (t : Transport) (r : Container) : Except PyErr Container :=
  if ¬ idTruthy r then .error (.typeError idRequiredMsg)
  else asyncSave c t r none none

/-- Embedding of `SyncResource.patch` (lib.py lines 441-443): the fields are
merged into the container first, then `save` runs with the field filter; the
second component is the container state when the call finishes, also when it
raises. -/
def syncPatch (c : Client) (cfg : RequestsConfig) (t : SyncTransport)
    (r : Container) (kw : List (String × Json)) :
    (Except PyErr Unit × Container) × RequestsConfig :=
  let r' := dictUpdate r kw
  match syncSave c cfg t r' (some (kw.map (·.1))) none with
  | (.error e, cfg') => ((.error e, r'), cfg')
  | (.ok r'', cfg') => ((.ok (), r''), cfg')

/-- Embedding of `AsyncResource.patch` (lib.py lines 501-503). -/
def asyncPatch (c : Client) (t : Transport) (r : Container) (kw : List (String × Json)) :
    Except PyErr Unit × Container :=
  let r' := dictUpdate r kw
  match asyncSave c t r' (some (kw.map (·.1))) none with
  | .error e => (.error e, r')
  | .ok r'' => (.ok (), r'')

/-- Embedding of `SyncSearchSet.patch` (lib.py lines 277-283): note the method
string passed to `_do_request` is the uppercase `"PATCH"`. -/
def syncSearchSetPatch (c : Client) (cfg : RequestsConfig) (t : SyncTransport)
    (resourceType : String) (params : Params) (resource : Container) :
    Except PyErr DoResult × RequestsConfig :=
  if resourceTypeOf resource ≠ resourceType then (.error .assertionError, cfg)
  else syncDoRequest c cfg t "PATCH" resourceType (some (serialize resource)) (some params) false

/-! ## Pagination -/

/-- Modelled from the spec: `_get_bundle_resources` of the external search-set
base (`fhirpy.base.searchset`, not under `src/`) extracts `entry[].resource`
in order when the payload is a Bundle and returns the payload itself as a
single element otherwise. -/
def getBundleResources (b : Json) : List Json :=
  match b with
  | .obj fs =>
      match jLookup fs "resourceType" with
      | some (.str "Bundle") =>
          match jLookup fs "entry" with
          | some (.arr es) =>
              es.map (fun e =>
                match e with
                | .obj efs => (jLookup efs "resource").getD .null
                | _ => .null)
          | _ => []
      | _ => [b]
  | _ => [b]

/-- Modelled from the spec: `get_by_path(bundle, ["link", relation next,
"url"])` from `fhirpy.base.utils` (not under `src/`) returns the `url` of the
first `link` entry whose `relation` is `"next"`, absent otherwise. -/
def nextLinkOf (b : Json) : Option String :=
  match b with
  | .obj fs =>
      match jLookup fs "link" with
      | some (.arr links) =>
          match links.find? (fun l =>
            match l with
            | .obj lfs =>
                match jLookup lfs "relation" with
                | some (.str s) => s == "next"
                | _ => false
            | _ => false) with
          | some (.obj lfs) =>
              match jLookup lfs "url" with
              | some (.str u) => some u
              | _ => none
          | _ => none
      | _ => none
  | _ => none

/-- Splitting a character list at every occurrence of `c`. -/
def splitOnChar (c : Char) : List Char → List (List Char)
  | [] => [[]]
  | x :: xs =>
      if x = c then [] :: splitOnChar c xs
      else
        match splitOnChar c xs with
        | [] => [[x]]
        | h :: t => (x :: h) :: t

/-- Modelled from the spec: `parse_pagination_url` from `fhirpy.base.utils`
(not under `src/`) decomposes a `next` link into the path before `?` and the
query parameters after it. -/
def parsePaginationUrl (u : String) : String × Params :=
  let (p, q) := splitAtChar '?' u.toList
  let pairs := (splitOnChar '&' q).filter (! ·.isEmpty)
  (String.mk p, pairs.map (fun kv =>
    let (k, v) := splitAtChar '=' kv
    (String.mk k, String.mk v)))

/-- Embedding of `SyncSearchSet.__iter__` (lib.py lines 290-304) with explicit
fuel: each round fetches the current page (the initial query first, then the
decomposed `next` link), yields its resources, and stops when the page has no
truthy `next` link.  Returns the yielded items and the number of transport
calls. -/
def iteratePages (fetchRes : String → Option Params → Json)
    (resourceType : String) (params : Option Params) :
    Nat → Option String → List Json × Nat
  | 0, _ => ([], 0)
  | fuel + 1, link =>
      let bundle :=
        match link with
        | some u =>
            let pq := parsePaginationUrl u
            fetchRes pq.1 (some pq.2)
        | none => fetchRes resourceType params
      let newResources := getBundleResources bundle
      match nextLinkOf bundle with
      | some u =>
          if u ≠ "" then
            let rest := iteratePages fetchRes resourceType params fuel (some u)
            (newResources ++ rest.1, rest.2 + 1)
          else (newResources, 1)
      | none => (newResources, 1)

/-- Embedding of `SyncSearchSet.fetch_all` (lib.py lines 227-228): drain the
iterator. -/
def fetchAllPages (fetchRes : String → Option Params → Json)
    (resourceType : String) (params : Option Params) (fuel : Nat) : List Json :=
  (iteratePages fetchRes resourceType params fuel none).1

/-- Bundle page carrying the given entry resources and, optionally, a `next`
link, shaped as the wire payloads the pagination loop consumes. -/
def mkBundlePage (es : List Json) (next : Option String) : Json :=
  .obj ([("resourceType", Json.str "Bundle"),
         ("entry", Json.arr (es.map fun r => Json.obj [("resource", r)]))] ++
        (match next with
         | some u =>
             [("link", Json.arr [Json.obj [("relation", Json.str "next"), ("url", Json.str u)]])]
         | none => []))

/-! ## Dictionary lemmas -/

theorem dLookup_dictUpsert_self {α : Type} (d : List (String × α)) (k : String) (v : α) :
    dLookup (dictUpsert d k v) k = some v := by
  induction d with
  | nil => simp [dictUpsert, dLookup]
  | cons kv rest ih =>
      obtain ⟨k', v'⟩ := kv
      by_cases h : k' = k
      · simp [dictUpsert, h, dLookup]
      · simp [dictUpsert, h, dLookup, ih]

theorem dLookup_dictUpsert_ne {α : Type} (d : List (String × α)) (k k' : String) (v : α)
    (h : k ≠ k') : dLookup (dictUpsert d k v) k' = dLookup d k' := by
  induction d with
  | nil => simp [dictUpsert, dLookup, h]
  | cons kv rest ih =>
      obtain ⟨k0, v0⟩ := kv
      by_cases h0 : k0 = k
      · subst h0
        simp [dictUpsert, dLookup, h]
      · simp [dictUpsert, h0, dLookup, ih]

theorem dictUpsert_dictUpsert {α : Type} (d : List (String × α)) (k : String) (v₁ v₂ : α) :
    dictUpsert (dictUpsert d k v₁) k v₂ = dictUpsert d k v₂ := by
  induction d with
  | nil => simp [dictUpsert]
  | cons kv rest ih =>
      obtain ⟨k0, v0⟩ := kv
      by_cases h0 : k0 = k
      · simp [dictUpsert, h0]
      · simp [dictUpsert, h0, ih]

theorem dLookup_dictUpdate_not_mem {α : Type} (e d : List (String × α)) (k : String)
    (h : k ∉ e.map Prod.fst) : dLookup (dictUpdate d e) k = dLookup d k := by
  induction e generalizing d with
  | nil => simp [dictUpdate]
  | cons kv rest ih =>
      obtain ⟨k0, v0⟩ := kv
      simp only [List.map_cons, List.mem_cons] at h
      push_neg at h
      have step : dictUpdate d ((k0, v0) :: rest) = dictUpdate (dictUpsert d k0 v0) rest := rfl
      rw [step, ih _ h.2, dLookup_dictUpsert_ne _ _ _ _ (fun hk => h.1 hk.symm)]

theorem dLookup_dictUpdate_mem {α : Type} (e d : List (String × α)) (k : String) (v : α)
    (hnd : (e.map Prod.fst).Nodup) (hm : (k, v) ∈ e) :
    dLookup (dictUpdate d e) k = some v := by
  induction e generalizing d with
  | nil => cases hm
  | cons kv rest ih =>
      obtain ⟨k0, v0⟩ := kv
      have step : dictUpdate d ((k0, v0) :: rest) = dictUpdate (dictUpsert d k0 v0) rest := rfl
      simp only [List.map_cons, List.nodup_cons] at hnd
      rcases List.mem_cons.1 hm with heq | hrest
      · obtain ⟨hk, hv⟩ := Prod.mk.inj heq
        subst hk; subst hv
        have hnot : k ∉ rest.map Prod.fst := hnd.1
        rw [step, dLookup_dictUpdate_not_mem _ _ _ hnot, dLookup_dictUpsert_self]
      · exact step ▸ ih (dictUpsert d k0 v0) hnd.2 hrest

/-! ## C1: absolute request URLs and the containment security check -/

/-- C1: for an absolute request path, `_build_request_url` returns the
(port-normalised) path exactly when the trailing-slash-stripped path contains
the trailing-slash-stripped base URL as a substring, ignoring `params`
entirely, and raises the security `ValueError` otherwise. -/
theorem buildRequestUrl_absolute_security (c : Client) (path : String)
    (params params' : Option Params) (habs : isAbsolute path = true) :
    (strContains (rstripSlashes (portNormalize c path)) (rstripSlashes c.url) = true →
      buildRequestUrl c path params = .ok (portNormalize c path)) ∧
    (strContains (rstripSlashes (portNormalize c path)) (rstripSlashes c.url) = false →
      buildRequestUrl c path params = .error (.valueError
        ("Request url \"" ++ portNormalize c path ++ "\" does not contain base url \""
          ++ c.url ++ "\" (possible security issue)"))) ∧
    buildRequestUrl c path params = buildRequestUrl c path params' := by
  refine ⟨fun hc => ?_, fun hc => ?_, ?_⟩ <;>
    simp only [buildRequestUrl, habs, if_true] <;>
    simp [hc]

/-- Witness for C1 at a concrete client and path on the allowed branch and at
a host-mismatching path on the rejecting branch. -/
theorem buildRequestUrl_absolute_security_witness :
    buildRequestUrl ⟨"https://srv", none, none⟩ "https://srv/Patient" (some [("a", "1")])
      = .ok "https://srv/Patient" ∧
    buildRequestUrl ⟨"https://srv", none, none⟩ "https://evil.example/x" none
      = .error (.valueError ("Request url \"https://evil.example/x\" does not contain base url \""
          ++ "https://srv" ++ "\" (possible security issue)")) := by
  constructor
  · exact (buildRequestUrl_absolute_security ⟨"https://srv", none, none⟩ "https://srv/Patient"
      (some [("a", "1")]) none (by decide)).1 (by decide)
  · exact (buildRequestUrl_absolute_security ⟨"https://srv", none, none⟩ "https://evil.example/x"
      none none (by decide)).2.1 (by decide)

/-! ## C2: the response status table -/

/-- C2: every 2xx response with a decodable non-empty body yields the decoded
body (paired with the status code exactly when `returning_status` was
requested), a 2xx empty body yields an absent value, 404 and 410 raise
`ResourceNotFound` with the raw body, and 412 raises `MultipleResourcesFound`
with the raw body. -/
theorem classifyResponse_status_table (status : Nat) (body : String) (rs : Bool) :
    (200 ≤ status → status < 300 → body ≠ "" → ∀ j, Json.decode body = some j →
      classifyResponse status body rs =
        .ok (if rs then .withStatus (some j) status else .plain (some j))) ∧
    (200 ≤ status → status < 300 → body = "" →
      classifyResponse status body rs =
        .ok (if rs then .withStatus none status else .plain none)) ∧
    (status = 404 ∨ status = 410 →
      classifyResponse status body rs = .error (.resourceNotFound body)) ∧
    (status = 412 → classifyResponse status body rs = .error (.multipleResourcesFound body)) := by
  refine ⟨fun h1 h2 hb j hj => ?_, fun h1 h2 hb => ?_, fun h45 => ?_, fun h12 => ?_⟩
  · simp [classifyResponse, h1, h2, hb, hj, mkDoResult]
  · simp [classifyResponse, h1, h2, hb, mkDoResult]
  · rcases h45 with h | h <;> subst h <;> simp [classifyResponse]
  · subst h12; simp [classifyResponse]

/-- Witness for C2 at the four concrete rows of the table. -/
theorem classifyResponse_status_table_witness :
    classifyResponse 200 "[]" true = .ok (.withStatus (some (.arr [])) 200) ∧
    classifyResponse 204 "" false = .ok (.plain none) ∧
    classifyResponse 410 "gone" false = .error (.resourceNotFound "gone") ∧
    classifyResponse 412 "many" false = .error (.multipleResourcesFound "many") := by
  refine ⟨?_, ?_, ?_, ?_⟩
  · simpa using (classifyResponse_status_table 200 "[]" true).1 (by decide) (by decide)
      (by decide) (.arr []) rfl
  · simpa using (classifyResponse_status_table 204 "" false).2.1 (by decide) (by decide) rfl
  · exact (classifyResponse_status_table 410 "gone" false).2.2.1 (Or.inr rfl)
  · exact (classifyResponse_status_table 412 "many" false).2.2.2 rfl

/-! ## C3: classification of the remaining statuses -/

/-- C3 counterexample: at status 500 with body `[1]`, which parses as JSON but
is not an object, the classification branch raises `TypeError`, not
`OperationOutcome`: Python subscripts the parsed list with a string and
`TypeError` is not among the caught exception classes. -/
theorem classifyResponse_nonObject_typeError :
    classifyResponse 500 "[1]" false
      = .error (.typeError "list indices must be integers or slices, not str") ∧
    ∀ res rea, classifyResponse 500 "[1]" false ≠ .error (.operationOutcome res rea) := by
  refine ⟨rfl, fun res rea h => ?_⟩
  rw [show classifyResponse 500 "[1]" false
      = .error (.typeError "list indices must be integers or slices, not str") from rfl] at h
  simp at h

/-- C3 amended: for every status outside 2xx and other than 404, 410 and 412,
classification raises `OperationOutcome` with the parsed resource when the
body parses to a JSON object whose `resourceType` is `"OperationOutcome"`,
`OperationOutcome` with the raw body as reason when the body fails to parse or
parses to an object with a missing or different `resourceType`, and a
`TypeError` (escaping the handler) when the body parses to a non-object JSON
value. -/
theorem classifyResponse_other_statuses (status : Nat) (body : String) (rs : Bool)
    (h2xx : ¬ (200 ≤ status ∧ status < 300)) (h404 : status ≠ 404) (h410 : status ≠ 410)
    (h412 : status ≠ 412) :
    classifyResponse status body rs = .error (
      match Json.decode body with
      | none => .operationOutcome none (some body)
      | some (.obj fs) =>
          match jLookup fs "resourceType" with
          | some (.str s) =>
              if s = "OperationOutcome" then .operationOutcome (some (.obj fs)) none
              else .operationOutcome none (some body)
          | _ => .operationOutcome none (some body)
      | some (.arr _) => .typeError "list indices must be integers or slices, not str"
      | some (.str _) => .typeError "string indices must be integers"
      | some .null => .typeError "NoneType object is not subscriptable"
      | some (.bool _) => .typeError "bool object is not subscriptable"
      | some (.num _) => .typeError "number is not subscriptable") := by
  simp only [classifyResponse, h2xx, if_false, h404, h410, h412, or_self, or_false, false_or]
  cases hd : Json.decode body with
  | none => simp
  | some j =>
      cases j with
      | obj fs =>
          simp only [pyGetItem]
          cases hl : jLookup fs "resourceType" with
          | none => simp
          | some v =>
              cases v <;> simp
              split <;> simp
      | null => simp [pyGetItem]
      | bool b => simp [pyGetItem]
      | num l => simp [pyGetItem]
      | str s => simp [pyGetItem]
      | arr items => simp [pyGetItem]

/-- Witness for the amended C3 at status 503 with the undecodable body
`boom`. -/
theorem classifyResponse_other_statuses_witness :
    classifyResponse 503 "boom" false = .error (.operationOutcome none (some "boom")) := by
  exact classifyResponse_other_statuses 503 "boom" false (by decide) (by decide) (by decide)
    (by decide)

/-! ## C6: the id guard of the resource lifecycle -/

/-- C6 counterexample: the error `save(fields=...)` raises on a container
without an id carries the message `Resource ` + backquoted `id` + ` is
required for update operation`, not the message `Resource id is required for
update` stated by the claim. -/
theorem savePlan_id_message_differs :
    syncSavePlan [("resourceType", Json.str "Patient")] (some ["status"])
      = .error (.typeError "Resource `id` is required for update operation") ∧
    "Resource `id` is required for update operation" ≠ "Resource id is required for update" := by
  exact ⟨rfl, by decide⟩

/-- C6 amended: with a non-empty field set and an unset id, the blocking `save`
fails with the invalid-state error (a `TypeError` carrying
`Resource ` + backquoted `id` + ` is required for update operation`) before any
request is built, for every transport and with the transport configuration
untouched; `update()` fails the same way when the id is unset; with the id
set, `save` with fields uses method `patch` and `save` without fields uses
`put`. -/
theorem resource_save_id_guard (c : Client) (cfg : RequestsConfig) (t : SyncTransport)
    (r : Container) (fs : List String) (sp : Option Params) :
    (fs ≠ [] → idTruthy r = false →
      syncSavePlan r (some fs) = .error (.typeError idRequiredMsg) ∧
      syncSave c cfg t r (some fs) sp = (.error (.typeError idRequiredMsg), cfg)) ∧
    (idTruthy r = false →
      syncUpdate c cfg t r = (.error (.typeError idRequiredMsg), cfg)) ∧
    (fs ≠ [] → idTruthy r = true →
      ∀ mb, syncSavePlan r (some fs) = .ok mb → mb.1 = "patch") ∧
    (idTruthy r = true →
      ∀ mb, syncSavePlan r none = .ok mb → mb.1 = "put") := by
  refine ⟨fun hfs hid => ?_, fun hid => ?_, fun hfs hid mb hmb => ?_, fun hid mb hmb => ?_⟩
  · have hplan : syncSavePlan r (some fs) = .error (.typeError idRequiredMsg) := by
      simp [syncSavePlan, fieldsTruthy, hfs, hid]
    exact ⟨hplan, by simp [syncSave, hplan]⟩
  · simp [syncUpdate, hid]
  · obtain ⟨m1, m2⟩ := mb
    cases fs with
    | nil => exact absurd rfl hfs
    | cons k ks =>
        simp only [syncSavePlan, fieldsTruthy, syncFieldBody, List.isEmpty_cons,
          Bool.not_false, if_true, hid, Bool.not_eq_true, if_false, Bool.true_eq_false,
          not_false_eq_true, if_neg] at hmb
        cases hops : syncFieldOps r (k :: ks) with
        | error e => simp [hops, Except.map] at hmb
        | ok ops =>
            simp [hops, Except.map] at hmb
            exact hmb.1.symm
  · obtain ⟨m1, m2⟩ := mb
    simp only [syncSavePlan, fieldsTruthy, hid] at hmb
    simp at hmb
    exact hmb.1.symm

/-- Witness for the amended C6 at a concrete id-less container, a concrete
container with id, and a failing transport. -/
theorem resource_save_id_guard_witness :
    syncSave ⟨"https://srv", none, none⟩ ⟨none⟩ (fun _ _ => .error ())
        [("resourceType", Json.str "Patient")] (some ["status"]) none
      = (.error (.typeError idRequiredMsg), ⟨none⟩) ∧
    syncUpdate ⟨"https://srv", none, none⟩ ⟨none⟩ (fun _ _ => .error ())
        [("resourceType", Json.str "Patient")]
      = (.error (.typeError idRequiredMsg), ⟨none⟩) ∧
    (syncSavePlan [("resourceType", Json.str "Patient"), ("id", Json.str "1")]
        (some ["id"])).map Prod.fst = .ok "patch" := by
  refine ⟨?_, ?_, ?_⟩
  · exact ((resource_save_id_guard ⟨"https://srv", none, none⟩ ⟨none⟩ (fun _ _ => .error ())
      [("resourceType", Json.str "Patient")] ["status"] none).1 (by decide) (by decide)).2
  · exact (resource_save_id_guard ⟨"https://srv", none, none⟩ ⟨none⟩ (fun _ _ => .error ())
      [("resourceType", Json.str "Patient")] ["status"] none).2.1 (by decide)
  · have h := (resource_save_id_guard ⟨"https://srv", none, none⟩ ⟨none⟩ (fun _ _ => .error ())
      [("resourceType", Json.str "Patient"), ("id", Json.str "1")] ["id"] none).2.2.1
      (by decide) rfl
      ("patch", Json.arr [Json.obj [("op", Json.str "add"), ("path", Json.str "/id"),
        ("value", Json.str "1")]]) rfl
    rw [show syncSavePlan [("resourceType", Json.str "Patient"), ("id", Json.str "1")]
        (some ["id"])
      = Except.ok ("patch", Json.arr [Json.obj [("op", Json.str "add"), ("path", Json.str "/id"),
        ("value", Json.str "1")]]) from rfl]
    exact congrArg Except.ok h

/-! ## C9: the caller-supplied session across a blocking request -/

/-- C9: at a client whose transport configuration carries a caller-supplied
session, a request whose transport call raises leaves the configuration
without the session (the code pops the session and only re-adds it after the
transport call returns), while a request whose transport call returns a
response, even an error status, restores the session. -/
theorem session_lost_on_transport_exception :
    syncDoRequest ⟨"https://srv", none, none⟩ ⟨some 7⟩ (fun _ _ => .error ())
        "get" "Patient" none none false
      = (.error .networkError, ⟨none⟩) ∧
    syncDoRequest ⟨"https://srv", none, none⟩ ⟨some 7⟩ (fun _ _ => .ok ⟨404, "nf"⟩)
        "get" "Patient" none none false
      = (.error (.resourceNotFound "nf"), ⟨some 7⟩) := by
  exact ⟨rfl, rfl⟩

/-! ## C10: lifecycle patch merges before the request and keeps the merge on
failure -/

/-- C10: `patch(**fields)` merges the fields into the container before the
request, so whenever the call finishes with any raised error — precondition,
domain or transport — the container state is exactly the pre-request merge of
the fields into the old container, and every patched key holds its new value;
this holds in both the blocking and the deferred implementation. -/
theorem patch_keeps_merged_fields_on_error (c : Client) (cfg : RequestsConfig)
    (t : SyncTransport) (t' : Transport) (r : Container) (kw : List (String × Json)) :
    (∀ e, (syncPatch c cfg t r kw).1.1 = .error e →
      (syncPatch c cfg t r kw).1.2 = dictUpdate r kw ∧
      ((kw.map Prod.fst).Nodup → ∀ k v, (k, v) ∈ kw →
        dLookup (syncPatch c cfg t r kw).1.2 k = some v)) ∧
    (∀ e, (asyncPatch c t' r kw).1 = .error e →
      (asyncPatch c t' r kw).2 = dictUpdate r kw ∧
      ((kw.map Prod.fst).Nodup → ∀ k v, (k, v) ∈ kw →
        dLookup (asyncPatch c t' r kw).2 k = some v)) := by
  constructor
  · intro e he
    have hstate : (syncPatch c cfg t r kw).1.2 = dictUpdate r kw := by
      unfold syncPatch at he ⊢
      cases hs : syncSave c cfg t (dictUpdate r kw) (some (kw.map (·.1))) none with
      | mk res cfg' =>
          cases res with
          | error e' => simp [hs]
          | ok r'' => simp [hs] at he
    exact ⟨hstate, fun hnd k v hm => by
      rw [hstate]; exact dLookup_dictUpdate_mem kw r k v hnd hm⟩
  · intro e he
    have hstate : (asyncPatch c t' r kw).2 = dictUpdate r kw := by
      unfold asyncPatch at he ⊢
      cases hs : asyncSave c t' (dictUpdate r kw) (some (kw.map (·.1))) none with
      | error e' => simp [hs]
      | ok r'' => simp [hs] at he
    exact ⟨hstate, fun hnd k v hm => by
      rw [hstate]; exact dLookup_dictUpdate_mem kw r k v hnd hm⟩

/-- Witness for C10 at a concrete container, patched field and 404-responding
transport, in both modes. -/
theorem patch_keeps_merged_fields_on_error_witness :
    dLookup (syncPatch ⟨"https://srv", none, none⟩ ⟨none⟩ (fun _ _ => .ok ⟨404, "nf"⟩)
        [("resourceType", Json.str "Patient"), ("id", Json.str "42"),
         ("status", Json.str "draft")]
        [("status", Json.str "active")]).1.2 "status" = some (Json.str "active") ∧
    dLookup (asyncPatch ⟨"https://srv", none, none⟩ (fun _ => .ok ⟨404, "nf"⟩)
        [("resourceType", Json.str "Patient"), ("id", Json.str "42"),
         ("status", Json.str "draft")]
        [("status", Json.str "active")]).2 "status" = some (Json.str "active") := by
  constructor
  · exact ((patch_keeps_merged_fields_on_error ⟨"https://srv", none, none⟩ ⟨none⟩
      (fun _ _ => .ok ⟨404, "nf"⟩) (fun _ => .ok ⟨404, "nf"⟩)
      [("resourceType", Json.str "Patient"), ("id", Json.str "42"),
       ("status", Json.str "draft")]
      [("status", Json.str "active")]).1 (.resourceNotFound "nf") rfl).2 (by decide)
      "status" (Json.str "active") (by simp)
  · exact ((patch_keeps_merged_fields_on_error ⟨"https://srv", none, none⟩ ⟨none⟩
      (fun _ _ => .ok ⟨404, "nf"⟩) (fun _ => .ok ⟨404, "nf"⟩)
      [("resourceType", Json.str "Patient"), ("id", Json.str "42"),
       ("status", Json.str "draft")]
      [("status", Json.str "active")]).2 (.resourceNotFound "nf") rfl).2 (by decide)
      "status" (Json.str "active") (by simp)

/-! ## C7: the header policy -/

/-- C7 counterexample: a blocking `get` request carries
`Content-Type: application/fhir+json` although the claim allows no
`Content-Type` on reads; and the SearchSet patch operation passes the
uppercase method string `PATCH`, which misses the lowercase comparison, so its
request goes out with `Content-Type: application/fhir+json` instead of
`application/json-patch+json` — the transport below accepts only such a
request and the call succeeds. -/
theorem syncHeaders_read_and_searchset_patch :
    dLookup (syncHeaders ⟨"https://srv", none, none⟩ "get") "Content-Type"
      = some "application/fhir+json" ∧
    syncSearchSetPatch ⟨"https://srv", none, none⟩ ⟨none⟩
        (fun _ req =>
          if req.method = "PATCH" ∧
              dLookup req.headers "Content-Type" = some "application/fhir+json" then
            .ok ⟨200, ""⟩
          else .error ())
        "Patient" [] [("resourceType", Json.str "Patient")]
      = (.ok (.plain none), ⟨none⟩) ∧
    dLookup (syncHeaders ⟨"https://srv", none, none⟩ "PATCH") "Content-Type"
      ≠ some "application/json-patch+json" := by
  refine ⟨rfl, rfl, by decide⟩

/-- C7 amended: `Accept: application/fhir+json` always (absent extra-header
override); `Authorization` exactly when a non-empty one is configured; extra
headers win on key conflict; the blocking client sends
`Content-Type: application/fhir+json` for every method string other than the
exact lowercase `"patch"` — including reads and the uppercase `"PATCH"` the
SearchSet patch operation passes — and `application/json-patch+json` for
`"patch"`; the deferred client adds no `Content-Type` except for `"patch"`. -/
theorem request_headers_policy (c : Client) (m : String) :
    dLookup (syncHeaders c m) "Content-Type"
      = some (if m = "patch" then "application/json-patch+json" else "application/fhir+json") ∧
    (m ≠ "patch" → asyncHeaders c m = buildRequestHeaders c) ∧
    dLookup (asyncHeaders c "patch") "Content-Type" = some "application/json-patch+json" ∧
    (c.extraHeaders = none →
      dLookup (buildRequestHeaders c) "Accept" = some "application/fhir+json") ∧
    (c.extraHeaders = none → ∀ a, c.authorization = some a → a ≠ "" →
      dLookup (buildRequestHeaders c) "Authorization" = some a) ∧
    (c.extraHeaders = none → c.authorization = none →
      dLookup (buildRequestHeaders c) "Authorization" = none) ∧
    (∀ extra k v, c.extraHeaders = some extra → (extra.map Prod.fst).Nodup →
      (k, v) ∈ extra → dLookup (buildRequestHeaders c) k = some v) := by
  refine ⟨?_, fun hm => ?_, ?_, fun hex => ?_, fun hex a ha hne => ?_, fun hex ha => ?_,
    fun extra k v hex hnd hm => ?_⟩
  · by_cases hm : m = "patch"
    · simp [syncHeaders, hm, dLookup_dictUpsert_self, dictUpsert_dictUpsert]
    · simp [syncHeaders, hm, dLookup_dictUpsert_self]
  · simp [asyncHeaders, hm]
  · simp [asyncHeaders, dLookup_dictUpsert_self]
  · simp only [buildRequestHeaders, hex]
    cases c.authorization with
    | none => rfl
    | some a =>
        dsimp only
        by_cases ha : a ≠ ""
        · rw [if_pos ha, dLookup_dictUpsert_ne _ _ _ _ (by decide)]
          rfl
        · rw [if_neg ha]
          rfl
  · simp only [buildRequestHeaders, hex, ha]
    rw [if_pos hne]
    exact dLookup_dictUpsert_self _ _ _
  · simp [buildRequestHeaders, hex, ha, dLookup]
  · simp only [buildRequestHeaders, hex]
    exact dLookup_dictUpdate_mem extra _ k v hnd hm

/-- Witness for the amended C7 at a concrete client with authorization and an
extra header. -/
theorem request_headers_policy_witness :
    dLookup (syncHeaders ⟨"https://srv", some "Bearer token", some [("X-Custom", "1")]⟩ "get")
        "Content-Type" = some "application/fhir+json" ∧
    asyncHeaders ⟨"https://srv", some "Bearer token", some [("X-Custom", "1")]⟩ "get"
      = buildRequestHeaders ⟨"https://srv", some "Bearer token", some [("X-Custom", "1")]⟩ ∧
    dLookup (buildRequestHeaders ⟨"https://srv", some "Bearer token", some [("X-Custom", "1")]⟩)
        "X-Custom" = some "1" ∧
    dLookup (buildRequestHeaders ⟨"https://srv", some "Bearer token", none⟩)
        "Authorization" = some "Bearer token" := by
  refine ⟨?_, ?_, ?_, ?_⟩
  · have h := (request_headers_policy
      ⟨"https://srv", some "Bearer token", some [("X-Custom", "1")]⟩ "get").1
    simpa using h
  · exact (request_headers_policy
      ⟨"https://srv", some "Bearer token", some [("X-Custom", "1")]⟩ "get").2.1 (by decide)
  · exact (request_headers_policy
      ⟨"https://srv", some "Bearer token", some [("X-Custom", "1")]⟩ "get").2.2.2.2.2.2
      [("X-Custom", "1")] "X-Custom" "1" rfl (by decide) (by simp)
  · exact (request_headers_policy
      ⟨"https://srv", some "Bearer token", none⟩ "get").2.2.2.2.1 rfl "Bearer token" rfl
      (by decide)

/-! ## C4: blocking versus deferred behaviour -/

/-- Alignment of the two field-body builders on success and failure: they
accept and reject the same field lists with the same error. -/
theorem fieldOps_pairs_aligned (r : Container) (fs : List String) :
    (syncFieldOps r fs).map (fun _ => ()) = (asyncFieldPairs r fs).map (fun _ => ()) := by
  induction fs with
  | nil => rfl
  | cons k ks ih =>
      simp only [syncFieldOps, asyncFieldPairs]
      cases jLookup r k with
      | none => rfl
      | some v =>
          cases hs : syncFieldOps r ks with
          | error e =>
              cases ha : asyncFieldPairs r ks with
              | error e' =>
                  simp [hs, ha, Except.map] at ih ⊢
                  exact ih
              | ok ps => simp [hs, ha, Except.map] at ih
          | ok ops =>
              cases ha : asyncFieldPairs r ks with
              | error e' => simp [hs, ha, Except.map] at ih
              | ok ps => simp [hs, ha, Except.map]

/-- With a transport that answers from the response alone, the blocking and
deferred `_do_request` produce the same outcome (and the blocking one keeps
its sessionless configuration). -/
theorem doRequest_outcome_eq (c : Client) (m p : String) (d : Option Json)
    (pr : Option Params) (rs : Bool) (resp : Except Unit HttpResponse) :
    (syncDoRequest c ⟨none⟩ (fun _ _ => resp) m p d pr rs).1
      = asyncDoRequest c (fun _ => resp) m p d pr rs := by
  unfold syncDoRequest asyncDoRequest syncBuildRequest asyncBuildRequest
  cases hu : buildRequestUrl c p pr with
  | error e => simp [Except.map]
  | ok url => cases resp <;> simp [Except.map]

/-- With a transport that answers from the response alone, the blocking and
deferred `save` without a field filter produce the same outcome. -/
theorem save_noFields_outcome_eq (c : Client) (r : Container) (sp : Option Params)
    (resp : Except Unit HttpResponse) :
    (syncSave c ⟨none⟩ (fun _ _ => resp) r none sp).1
      = asyncSave c (fun _ => resp) r none sp := by
  unfold syncSave asyncSave
  rw [show asyncSavePlan r none = syncSavePlan r none from rfl]
  cases hp : syncSavePlan r none with
  | error e => rfl
  | ok mb =>
      dsimp only
      have h := doRequest_outcome_eq c mb.1 (getPath r) (some mb.2) sp false resp
      rcases hsync : syncDoRequest c ⟨none⟩ (fun _ _ => resp) mb.1 (getPath r) (some mb.2) sp false
        with ⟨res, cfg'⟩
      rw [hsync] at h
      dsimp only at h
      rw [← h]
      cases res with
      | error e => rfl
      | ok dr =>
          dsimp only
          cases hb : dr.bodyOf with
          | none => simp [hb]
          | some j =>
              cases happ : applyServerState (resourceTypeOf r) j <;>
                by_cases hj : jsonTruthy j = true <;>
                simp [hb, happ, hj]

/-- C4 counterexample: at the same resource and the same field filter, the
blocking `save` sends a JSON-Patch operation list while the deferred `save`
sends a plain partial object, so the two modes do not send the same body; and
a blocking `get` carries a `Content-Type` header that the deferred `get` does
not carry. -/
theorem sync_async_patch_body_differs :
    syncSavePlan [("resourceType", Json.str "Patient"), ("id", Json.str "1"),
        ("status", Json.str "active")] (some ["status"])
      = .ok ("patch", .arr [.obj [("op", .str "add"), ("path", .str "/status"),
          ("value", .str "active")]]) ∧
    asyncSavePlan [("resourceType", Json.str "Patient"), ("id", Json.str "1"),
        ("status", Json.str "active")] (some ["status"])
      = .ok ("patch", .obj [("status", .str "active")]) ∧
    syncSavePlan [("resourceType", Json.str "Patient"), ("id", Json.str "1"),
        ("status", Json.str "active")] (some ["status"])
      ≠ asyncSavePlan [("resourceType", Json.str "Patient"), ("id", Json.str "1"),
        ("status", Json.str "active")] (some ["status"]) ∧
    dLookup (syncHeaders ⟨"https://srv", none, none⟩ "get") "Content-Type"
      = some "application/fhir+json" ∧
    dLookup (asyncHeaders ⟨"https://srv", none, none⟩ "get") "Content-Type" = none := by
  refine ⟨rfl, rfl, fun h => ?_, rfl, rfl⟩
  rw [show syncSavePlan [("resourceType", Json.str "Patient"), ("id", Json.str "1"),
        ("status", Json.str "active")] (some ["status"])
      = .ok ("patch", .arr [.obj [("op", .str "add"), ("path", .str "/status"),
          ("value", .str "active")]]) from rfl,
    show asyncSavePlan [("resourceType", Json.str "Patient"), ("id", Json.str "1"),
        ("status", Json.str "active")] (some ["status"])
      = .ok ("patch", .obj [("status", .str "active")]) from rfl] at h
  simp at h

/-- C4 amended: for identical inputs the two modes build requests with the
same method, URL and body and classify responses identically, so any transport
answering from the response alone yields the same outcome for `doRequest`,
for `save` without a field filter, and for `update`; the only divergences are
that the blocking client forces a `Content-Type` header on non-`patch`
requests where the deferred client adds none, and that `save` with a
non-empty field filter, while choosing method `patch` and accepting or
rejecting the same inputs in both modes, encodes the body as a JSON-Patch
operation list in blocking mode and as a plain partial object in deferred
mode. -/
theorem sync_async_equivalence (c : Client) (m p : String) (d : Option Json)
    (pr : Option Params) (rs : Bool) (resp : Except Unit HttpResponse)
    (r : Container) (sp : Option Params) (fs : List String) :
    ((syncDoRequest c ⟨none⟩ (fun _ _ => resp) m p d pr rs).1
      = asyncDoRequest c (fun _ => resp) m p d pr rs) ∧
    (Except.map Request.method (syncBuildRequest c m p d pr)
      = Except.map Request.method (asyncBuildRequest c m p d pr)) ∧
    (Except.map Request.url (syncBuildRequest c m p d pr)
      = Except.map Request.url (asyncBuildRequest c m p d pr)) ∧
    (Except.map Request.body (syncBuildRequest c m p d pr)
      = Except.map Request.body (asyncBuildRequest c m p d pr)) ∧
    (m = "patch" → syncBuildRequest c m p d pr = asyncBuildRequest c m p d pr) ∧
    (m ≠ "patch" → syncHeaders c m
      = dictUpsert (asyncHeaders c m) "Content-Type" "application/fhir+json") ∧
    (syncSavePlan r none = asyncSavePlan r none) ∧
    (Except.map Prod.fst (syncSavePlan r (some fs))
      = Except.map Prod.fst (asyncSavePlan r (some fs))) ∧
    ((syncSave c ⟨none⟩ (fun _ _ => resp) r none sp).1
      = asyncSave c (fun _ => resp) r none sp) ∧
    ((syncUpdate c ⟨none⟩ (fun _ _ => resp) r).1 = asyncUpdate c (fun _ => resp) r) := by
  refine ⟨doRequest_outcome_eq c m p d pr rs resp, ?_, ?_, ?_, fun hm => ?_, fun hm => ?_,
    rfl, ?_, save_noFields_outcome_eq c r sp resp, ?_⟩
  · unfold syncBuildRequest asyncBuildRequest
    cases hu : buildRequestUrl c p pr <;> simp [Except.map]
  · unfold syncBuildRequest asyncBuildRequest
    cases hu : buildRequestUrl c p pr <;> simp [Except.map]
  · unfold syncBuildRequest asyncBuildRequest
    cases hu : buildRequestUrl c p pr <;> simp [Except.map]
  · subst hm
    unfold syncBuildRequest asyncBuildRequest
    have hh : syncHeaders c "patch" = asyncHeaders c "patch" := by
      simp [syncHeaders, asyncHeaders, dictUpsert_dictUpsert]
    rw [hh]
  · simp [syncHeaders, asyncHeaders, hm]
  · cases fs with
    | nil => rfl
    | cons k ks =>
        simp only [syncSavePlan, asyncSavePlan, fieldsTruthy, Option.getD_some,
          List.isEmpty_cons, Bool.not_false, if_true]
        by_cases hid2 : idTruthy r = true
        · rw [if_neg (by simp [hid2]), if_neg (by simp [hid2])]
          simp only [syncFieldBody, asyncFieldBody]
          have hal := fieldOps_pairs_aligned r (k :: ks)
          cases hs : syncFieldOps r (k :: ks) with
          | error e =>
              cases ha : asyncFieldPairs r (k :: ks) with
              | error e' =>
                  simp [hs, ha, Except.map] at hal ⊢
                  exact hal
              | ok ps => simp [hs, ha, Except.map] at hal
          | ok ops =>
              cases ha : asyncFieldPairs r (k :: ks) with
              | error e' => simp [hs, ha, Except.map] at hal
              | ok ps => simp [hs, ha, Except.map]
        · rw [if_pos (by simp [hid2]), if_pos (by simp [hid2])]
  · unfold syncUpdate asyncUpdate
    by_cases hid : idTruthy r = true
    · rw [if_neg (by simp [hid]), if_neg (by simp [hid])]
      exact save_noFields_outcome_eq c r none resp
    · rw [if_pos (by simp [hid]), if_pos (by simp [hid])]

/-- Witness for the amended C4 at a concrete client, resource and 200
response. -/
theorem sync_async_equivalence_witness :
    (syncDoRequest ⟨"https://srv", none, none⟩ ⟨none⟩ (fun _ _ => .ok ⟨200, "[]"⟩)
        "get" "Patient" none none false).1
      = asyncDoRequest ⟨"https://srv", none, none⟩ (fun _ => .ok ⟨200, "[]"⟩)
        "get" "Patient" none none false ∧
    (syncHeaders ⟨"https://srv", none, none⟩ "get"
      = dictUpsert (asyncHeaders ⟨"https://srv", none, none⟩ "get")
          "Content-Type" "application/fhir+json") ∧
    (syncSave ⟨"https://srv", none, none⟩ ⟨none⟩ (fun _ _ => .ok ⟨200, "[]"⟩)
        [("resourceType", Json.str "Patient"), ("id", Json.str "1")] none none).1
      = asyncSave ⟨"https://srv", none, none⟩ (fun _ => .ok ⟨200, "[]"⟩)
        [("resourceType", Json.str "Patient"), ("id", Json.str "1")] none none := by
  refine ⟨?_, ?_, ?_⟩
  · exact (sync_async_equivalence ⟨"https://srv", none, none⟩ "get" "Patient" none none false
      (.ok ⟨200, "[]"⟩) [] none []).1
  · exact (sync_async_equivalence ⟨"https://srv", none, none⟩ "get" "Patient" none none false
      (.ok ⟨200, "[]"⟩) [] none []).2.2.2.2.2.1 (by decide)
  · exact (sync_async_equivalence ⟨"https://srv", none, none⟩ "get" "Patient" none none false
      (.ok ⟨200, "[]"⟩) [("resourceType", Json.str "Patient"), ("id", Json.str "1")] none
      []).2.2.2.2.2.2.2.2.1

/-! ## C5: draining the pagination protocol -/

/-- Resources of a constructed Bundle page are its entries, in order. -/
theorem getBundleResources_mkBundlePage (es : List Json) (next : Option String) :
    getBundleResources (mkBundlePage es next) = es := by
  have hmap : ∀ l : List Json,
      (l.map (fun r => Json.obj [("resource", r)])).map
        (fun e => match e with
          | Json.obj efs => (jLookup efs "resource").getD Json.null
          | _ => Json.null) = l := by
    intro l
    induction l with
    | nil => rfl
    | cons a t ihm =>
        simp only [List.map_cons]
        rw [ihm]
        rfl
  cases next with
  | none => exact hmap es
  | some u => exact hmap es

/-- Next link of a constructed Bundle page with one. -/
theorem nextLinkOf_mkBundlePage_some (es : List Json) (u : String) :
    nextLinkOf (mkBundlePage es (some u)) = some u := by
  simp [nextLinkOf, mkBundlePage, jLookup, dLookup, List.find?]

/-- Next link of a constructed Bundle page without one. -/
theorem nextLinkOf_mkBundlePage_none (es : List Json) :
    nextLinkOf (mkBundlePage es none) = none := by
  simp [nextLinkOf, mkBundlePage, jLookup, dLookup]

/-- Round `k` of the iteration against a server of `entries.length` chained
pages yields the remaining entries with one transport call per remaining
page. -/
theorem iteratePages_aux
    (entries : List (List Json)) (urls : Nat → String)
    (fetchRes : String → Option Params → Json) (rt : String) (ps : Option Params)
    (hurls : ∀ i, urls i ≠ "")
    (h0 : fetchRes rt ps
      = mkBundlePage (entries.getD 0 [])
          (if 1 < entries.length then some (urls 0) else none))
    (hstep : ∀ i, i + 1 < entries.length →
      fetchRes (parsePaginationUrl (urls i)).1 (some (parsePaginationUrl (urls i)).2)
        = mkBundlePage (entries.getD (i + 1) [])
            (if i + 2 < entries.length then some (urls (i + 1)) else none)) :
    ∀ n k, n = entries.length - k → k < entries.length →
      iteratePages fetchRes rt ps n (if k = 0 then none else some (urls (k - 1)))
        = ((entries.drop k).flatten, n) := by
  intro n
  induction n with
  | zero => intro k hn hk; omega
  | succ n ih =>
      intro k hn hk
      have hbundle :
          (match (if k = 0 then none else some (urls (k - 1))) with
            | some u => fetchRes (parsePaginationUrl u).1 (some (parsePaginationUrl u).2)
            | none => fetchRes rt ps)
          = mkBundlePage (entries.getD k [])
              (if k + 1 < entries.length then some (urls k) else none) := by
        cases k with
        | zero => simpa using h0
        | succ j =>
            simp only [Nat.succ_ne_zero, if_neg, Nat.add_sub_cancel]
            simpa using hstep j hk
      rw [iteratePages.eq_def]
      dsimp only
      rw [hbundle, getBundleResources_mkBundlePage]
      by_cases hlt : k + 1 < entries.length
      · rw [if_pos hlt, nextLinkOf_mkBundlePage_some]
        dsimp only
        rw [if_pos (by simpa using hurls k)]
        have hrec := ih (k + 1) (by omega) hlt
        rw [if_neg (Nat.succ_ne_zero k), Nat.add_sub_cancel] at hrec
        rw [hrec]
        have hdrop : entries.drop k = entries[k] :: entries.drop (k + 1) :=
          List.drop_eq_getElem_cons hk
        have hget : entries.getD k [] = entries[k] := List.getD_eq_getElem entries [] hk
        rw [hget, hdrop, List.flatten_cons]
      · rw [if_neg hlt, nextLinkOf_mkBundlePage_none]
        dsimp only
        have hn0 : n = 0 := by omega
        have hdrop : entries.drop k = entries[k] :: entries.drop (k + 1) :=
          List.drop_eq_getElem_cons hk
        have hnil : entries.drop (k + 1) = [] := List.drop_eq_nil_of_le (by omega)
        have hget : entries.getD k [] = entries[k] := List.getD_eq_getElem entries [] hk
        rw [hget, hdrop, hnil, hn0]
        simp

/-- C5: against a server of `N` chained Bundle pages — each page linking to
the following one through a `next` link decomposable into the query the
transport answers, the last page carrying none — draining the iteration with
fuel `N` starting from the initial query yields exactly the concatenation of
all pages' entries, in page order and within-page order, with exactly `N`
transport calls; `fetch_all` returns that same concatenation. -/
theorem iteratePages_drains_all_pages
    (entries : List (List Json)) (urls : Nat → String)
    (fetchRes : String → Option Params → Json) (rt : String) (ps : Option Params)
    (hne : entries ≠ [])
    (hurls : ∀ i, urls i ≠ "")
    (h0 : fetchRes rt ps
      = mkBundlePage (entries.getD 0 [])
          (if 1 < entries.length then some (urls 0) else none))
    (hstep : ∀ i, i + 1 < entries.length →
      fetchRes (parsePaginationUrl (urls i)).1 (some (parsePaginationUrl (urls i)).2)
        = mkBundlePage (entries.getD (i + 1) [])
            (if i + 2 < entries.length then some (urls (i + 1)) else none)) :
    iteratePages fetchRes rt ps entries.length none = (entries.flatten, entries.length) ∧
    fetchAllPages fetchRes rt ps entries.length = entries.flatten := by
  have hpos : 0 < entries.length := List.length_pos_iff_ne_nil.2 hne
  have h := iteratePages_aux entries urls fetchRes rt ps hurls h0 hstep entries.length 0
    (by omega) hpos
  simp only [if_pos rfl, List.drop_zero] at h
  exact ⟨h, by simpa [fetchAllPages] using congrArg Prod.fst h⟩

/-- Witness for C5 at a concrete three-page server. -/
theorem iteratePages_drains_all_pages_witness :
    iteratePages
      (fun p q =>
        if p = "Patient" then
          match q with
          | some [("page", "1")] => mkBundlePage [Json.str "b"] (some "Patient?page=2")
          | some [("page", "2")] => mkBundlePage [Json.str "c"] none
          | _ => mkBundlePage [Json.str "a"] (some "Patient?page=1")
        else Json.null)
      "Patient" none 3 none
    = ([Json.str "a", Json.str "b", Json.str "c"], 3) := by
  have h := iteratePages_drains_all_pages
    [[Json.str "a"], [Json.str "b"], [Json.str "c"]]
    (fun i => if i = 0 then "Patient?page=1" else if i = 1 then "Patient?page=2" else "Patient?x=y")
    (fun p q =>
      if p = "Patient" then
        match q with
        | some [("page", "1")] => mkBundlePage [Json.str "b"] (some "Patient?page=2")
        | some [("page", "2")] => mkBundlePage [Json.str "c"] none
        | _ => mkBundlePage [Json.str "a"] (some "Patient?page=1")
      else Json.null)
    "Patient" none
    (by simp)
    (fun i => by
      by_cases h0 : i = 0
      · subst h0; decide
      · by_cases h1 : i = 1
        · subst h1; decide
        · simp [h0, h1])
    rfl
    (fun i hi => by
      match i, hi with
      | 0, _ => rfl
      | 1, _ => rfl)
  simpa using h.1

/-! ## C8: port normalisation of absolute https paths -/

theorem takeWhile_append_stop (p : Char → Bool) (l₁ : List Char) (x : Char) (l₂ : List Char)
    (h1 : ∀ c ∈ l₁, p c = true) (hx : p x = false) :
    (l₁ ++ x :: l₂).takeWhile p = l₁ := by
  induction l₁ with
  | nil => simp [List.takeWhile_cons, hx]
  | cons a t ih =>
      have ha : p a = true := h1 a (by simp)
      simp only [List.cons_append, List.takeWhile_cons, ha, if_true]
      rw [ih (fun c hc => h1 c (by simp [hc]))]

theorem dropWhile_append_stop (p : Char → Bool) (l₁ : List Char) (x : Char) (l₂ : List Char)
    (h1 : ∀ c ∈ l₁, p c = true) (hx : p x = false) :
    (l₁ ++ x :: l₂).dropWhile p = x :: l₂ := by
  induction l₁ with
  | nil => simp [List.dropWhile_cons, hx]
  | cons a t ih =>
      have ha : p a = true := h1 a (by simp)
      simp only [List.cons_append, List.dropWhile_cons, ha, if_true]
      exact ih (fun c hc => h1 c (by simp [hc]))

theorem takeWhile_all_true (p : Char → Bool) (l : List Char) (h : ∀ c ∈ l, p c = true) :
    l.takeWhile p = l := by
  induction l with
  | nil => rfl
  | cons a t ih =>
      have ha : p a = true := h a (by simp)
      simp only [List.takeWhile_cons, ha, if_true]
      rw [ih (fun c hc => h c (by simp [hc]))]

theorem dropWhile_all_true (p : Char → Bool) (l : List Char) (h : ∀ c ∈ l, p c = true) :
    l.dropWhile p = [] := by
  induction l with
  | nil => rfl
  | cons a t ih =>
      have ha : p a = true := h a (by simp)
      simp only [List.dropWhile_cons, ha, if_true]
      exact ih (fun c hc => h c (by simp [hc]))

theorem dropWhile_head_spec (p : Char → Bool) (l : List Char) :
    l.dropWhile p = [] ∨ ∃ h t, l.dropWhile p = h :: t ∧ p h = false := by
  induction l with
  | nil => exact Or.inl rfl
  | cons a t ih =>
      by_cases ha : p a = true
      · simpa [List.dropWhile_cons, ha] using ih
      · exact Or.inr ⟨a, t, by simp [List.dropWhile_cons, ha], by simpa using ha⟩

theorem splitFirst_append (p : Char → Bool) (l₁ : List Char) (x : Char) (l₂ : List Char)
    (h1 : ∀ c ∈ l₁, p c = false) (hx : p x = true) :
    splitFirst p (l₁ ++ x :: l₂) = (l₁, some l₂) := by
  unfold splitFirst
  rw [takeWhile_append_stop _ _ _ _ (fun c hc => by simp [h1 c hc]) (by simp [hx]),
    dropWhile_append_stop _ _ _ _ (fun c hc => by simp [h1 c hc]) (by simp [hx])]

theorem splitAtChar_append (x : Char) (l₁ l₂ : List Char) (h : ∀ c ∈ l₁, c ≠ x) :
    splitAtChar x (l₁ ++ x :: l₂) = (l₁, l₂) := by
  unfold splitAtChar
  rw [takeWhile_append_stop _ _ _ _ (fun c hc => by simp [h c hc]) (by simp),
    dropWhile_append_stop _ _ _ _ (fun c hc => by simp [h c hc]) (by simp)]

theorem splitAtChar_of_not_mem (x : Char) (l : List Char) (h : ∀ c ∈ l, c ≠ x) :
    splitAtChar x l = (l, []) := by
  unfold splitAtChar
  rw [takeWhile_all_true _ _ (fun c hc => by simp [h c hc]),
    dropWhile_all_true _ _ (fun c hc => by simp [h c hc])]

theorem isPrefixOf_self_append (m l : List Char) : m.isPrefixOf (m ++ l) = true := by
  induction m with
  | nil => simp [List.isPrefixOf]
  | cons a t ih => simp [List.isPrefixOf, ih]

theorem hasSubList_middle (l₁ m l₂ : List Char) : hasSubList (l₁ ++ (m ++ l₂)) m = true := by
  induction l₁ with
  | nil =>
      rw [List.nil_append, hasSubList.eq_def]
      simp [isPrefixOf_self_append]
  | cons a t ih =>
      rw [List.cons_append, hasSubList.eq_def]
      simp [ih]

theorem strToList_append (a b : String) : (a ++ b).toList = a.toList ++ b.toList := by
  cases a; cases b; rfl

theorem strMk_append (a b : List Char) : String.mk (a ++ b) = String.mk a ++ String.mk b := by
  rfl

theorem strMk_ne_empty_iff (l : List Char) : (String.mk l ≠ "") ↔ l ≠ [] := by
  constructor
  · intro h hl
    exact h (by rw [hl])
  · intro h hs
    apply h
    have hd : (String.mk l).data = ("" : String).data := by rw [hs]
    simpa using hd

/-- Stage view of `urlparse`. -/
theorem urlparse_def (s : String) :
    urlparse s = ⟨(splitSchemeCs s.toList).1,
      String.mk (splitNetlocCs (splitSchemeCs s.toList).2).1,
      String.mk (splitAtChar '?'
        (splitAtChar '#' (splitNetlocCs (splitSchemeCs s.toList).2).2).1).1,
      String.mk (splitAtChar '?'
        (splitAtChar '#' (splitNetlocCs (splitSchemeCs s.toList).2).2).1).2,
      String.mk (splitAtChar '#' (splitNetlocCs (splitSchemeCs s.toList).2).2).2⟩ := rfl

/-- Case analysis of the netloc stage. -/
theorem splitNetlocCs_spec (l : List Char) :
    splitNetlocCs l = ([], l) ∨
      ∃ r, l = '/' :: '/' :: r ∧
        splitNetlocCs l =
          (r.takeWhile (fun c => ! urlStop c), r.dropWhile (fun c => ! urlStop c)) := by
  unfold splitNetlocCs
  split
  · next r => exact Or.inr ⟨r, rfl, rfl⟩
  · exact Or.inl rfl

theorem splitNetlocCs_no_stop (l : List Char) :
    ∀ c ∈ (splitNetlocCs l).1, urlStop c = false := by
  rcases splitNetlocCs_spec l with h | ⟨r, hl, h⟩ <;> rw [h]
  · intro c hc
    simp at hc
  · intro c hc
    have := List.mem_takeWhile_imp hc
    simpa using this

theorem splitAtChar_fst_ne (x : Char) (l : List Char) :
    ∀ c ∈ (splitAtChar x l).1, c ≠ x := by
  intro c hc
  have := List.mem_takeWhile_imp hc
  simpa using this

theorem splitAtChar_fst_subset (x : Char) (l : List Char) :
    ∀ c ∈ (splitAtChar x l).1, c ∈ l :=
  fun _ hc => (List.takeWhile_sublist _).subset hc

theorem splitAtChar_snd_subset (x : Char) (l : List Char) :
    ∀ c ∈ (splitAtChar x l).2, c ∈ l := by
  intro c hc
  unfold splitAtChar at hc
  rcases hd : l.dropWhile (· != x) with _ | ⟨y, t⟩ <;> rw [hd] at hc
  · simp at hc
  · dsimp at hc
    exact (List.dropWhile_sublist _).subset (hd ▸ List.mem_cons_of_mem y hc)

theorem urlparse_netloc_no_stop (s : String) :
    ∀ c ∈ (urlparse s).netloc.toList, urlStop c = false := by
  rw [urlparse_def]
  intro c hc
  exact splitNetlocCs_no_stop _ c (by simpa using hc)

theorem urlparse_path_ne_quest (s : String) :
    ∀ c ∈ (urlparse s).path.toList, c ≠ '?' := by
  rw [urlparse_def]
  intro c hc
  exact splitAtChar_fst_ne '?' _ c (by simpa using hc)

theorem urlparse_path_ne_hash (s : String) :
    ∀ c ∈ (urlparse s).path.toList, c ≠ '#' := by
  rw [urlparse_def]
  intro c hc
  exact splitAtChar_fst_ne '#' _ c (splitAtChar_fst_subset '?' _ c (by simpa using hc))

theorem urlparse_query_ne_hash (s : String) :
    ∀ c ∈ (urlparse s).query.toList, c ≠ '#' := by
  rw [urlparse_def]
  intro c hc
  exact splitAtChar_fst_ne '#' _ c (splitAtChar_snd_subset '?' _ c (by simpa using hc))

theorem stage_path_head (l : List Char) (hne : (splitNetlocCs l).1 ≠ []) :
    (splitAtChar '?' (splitAtChar '#' (splitNetlocCs l).2).1).1 = [] ∨
      ∃ t, (splitAtChar '?' (splitAtChar '#' (splitNetlocCs l).2).1).1 = '/' :: t := by
  rcases splitNetlocCs_spec l with h | ⟨r, hl, h⟩
  · rw [h] at hne
    exact absurd rfl hne
  · rw [h]
    rcases dropWhile_head_spec (fun c => ! urlStop c) r with hdw | ⟨hch, t, hdw, hph⟩
    · rw [hdw]
      left
      rfl
    · rw [hdw]
      have hstop : urlStop hch = true := by simpa using hph
      have : hch = '/' ∨ hch = '?' ∨ hch = '#' := by
        simp only [urlStop, Bool.or_eq_true, decide_eq_true_eq] at hstop
        tauto
      rcases this with rfl | rfl | rfl
      · right
        refine ⟨((t.takeWhile (· != '#')).takeWhile (· != '?')), ?_⟩
        simp [splitAtChar, List.takeWhile_cons]
      · left
        simp [splitAtChar, List.takeWhile_cons]
      · left
        simp [splitAtChar, List.takeWhile_cons]

theorem urlparse_path_head (s : String) (hne : (urlparse s).netloc ≠ "") :
    (urlparse s).path.toList = [] ∨ ∃ t, (urlparse s).path.toList = '/' :: t := by
  rw [urlparse_def] at hne ⊢
  exact stage_path_head _ ((strMk_ne_empty_iff _).1 hne)

theorem splitSchemeCs_https (R : List Char) :
    splitSchemeCs ('h' :: 't' :: 't' :: 'p' :: 's' :: ':' :: R) = ("https", R) := by
  unfold splitSchemeCs
  rw [show ('h' :: 't' :: 't' :: 'p' :: 's' :: ':' :: R)
      = (['h', 't', 't', 'p', 's'] ++ ':' :: R) from rfl]
  rw [splitFirst_append _ _ _ _ (by decide) (by decide)]
  dsimp only
  rw [if_pos (by decide)]
  have hlow : String.mk (List.map Char.toLower ['h', 't', 't', 'p', 's']) = "https" := by decide
  rw [hlow]

theorem splitNetlocCs_slashes (r : List Char) :
    splitNetlocCs ('/' :: '/' :: r)
      = (r.takeWhile (fun c => ! urlStop c), r.dropWhile (fun c => ! urlStop c)) := rfl

theorem takeWhile_notStop_block (nl pal suf : List Char)
    (hn : ∀ c ∈ nl, urlStop c = false)
    (hhead : pal = [] ∨ ∃ t, pal = '/' :: t) :
    ((nl ++ [':', '4', '4', '3']) ++ (pal ++ '?' :: suf)).takeWhile (fun c => ! urlStop c)
      = nl ++ [':', '4', '4', '3'] ∧
    ((nl ++ [':', '4', '4', '3']) ++ (pal ++ '?' :: suf)).dropWhile (fun c => ! urlStop c)
      = pal ++ '?' :: suf := by
  have hall : ∀ c ∈ nl ++ [':', '4', '4', '3'], (! urlStop c) = true := by
    intro c hc
    rcases List.mem_append.1 hc with h | h
    · simp [hn c h]
    · exact (by decide : ∀ c ∈ ([':', '4', '4', '3'] : List Char), (! urlStop c) = true) c h
  rcases hhead with hpal | ⟨t, hpal⟩
  · subst hpal
    rw [List.nil_append]
    exact ⟨takeWhile_append_stop _ _ '?' suf hall (by decide),
      dropWhile_append_stop _ _ '?' suf hall (by decide)⟩
  · subst hpal
    rw [show ('/' :: t) ++ '?' :: suf = '/' :: (t ++ '?' :: suf) from rfl]
    exact ⟨takeWhile_append_stop _ _ '/' _ hall (by decide),
      dropWhile_append_stop _ _ '/' _ hall (by decide)⟩

/-- Reparsing a URL rebuilt by the port-normalisation step recovers scheme
`https`, netloc extended by `:443`, and the original path, query and
fragment. -/
theorem urlparse_rebuild (n pa q f : String)
    (hn : ∀ c ∈ n.toList, urlStop c = false)
    (hpq : ∀ c ∈ pa.toList, c ≠ '?')
    (hph : ∀ c ∈ pa.toList, c ≠ '#')
    (hqh : ∀ c ∈ q.toList, c ≠ '#')
    (hhead : pa.toList = [] ∨ ∃ t, pa.toList = '/' :: t) :
    urlparse (if f ≠ "" then
        "https" ++ "://" ++ n ++ ":443" ++ pa ++ "?" ++ q ++ "#" ++ f
      else "https" ++ "://" ++ n ++ ":443" ++ pa ++ "?" ++ q)
      = ⟨"https", n ++ ":443", pa, q, f⟩ := by
  have hb1 : ∀ c ∈ pa.toList ++ '?' :: q.toList, c ≠ '#' := by
    intro c hc
    rcases List.mem_append.1 hc with h | h
    · exact hph c h
    · rcases List.mem_cons.1 h with rfl | h
      · decide
      · exact hqh c h
  by_cases hf : f = ""
  · rw [if_neg (by simpa using hf), hf]
    have hfl : ("https" ++ "://" ++ n ++ ":443" ++ pa ++ "?" ++ q).toList
        = 'h' :: 't' :: 't' :: 'p' :: 's' :: ':' :: '/' :: '/' ::
            ((n.toList ++ [':', '4', '4', '3']) ++ (pa.toList ++ '?' :: q.toList)) := by
      simp only [strToList_append, show "https".toList = ['h', 't', 't', 'p', 's'] from rfl,
        show "://".toList = [':', '/', '/'] from rfl,
        show ":443".toList = [':', '4', '4', '3'] from rfl,
        show "?".toList = ['?'] from rfl, List.append_assoc]
      rfl
    rw [urlparse_def, hfl, splitSchemeCs_https]
    have hblock := takeWhile_notStop_block n.toList pa.toList q.toList hn hhead
    have hnet : splitNetlocCs ('/' :: '/' ::
        ((n.toList ++ [':', '4', '4', '3']) ++ (pa.toList ++ '?' :: q.toList)))
        = (n.toList ++ [':', '4', '4', '3'], pa.toList ++ '?' :: q.toList) := by
      rw [splitNetlocCs_slashes, hblock.1, hblock.2]
    rw [hnet]
    rw [splitAtChar_of_not_mem '#' _ hb1]
    rw [splitAtChar_append '?' _ _ hpq]
    rfl
  · rw [if_pos hf]
    have hfl : ("https" ++ "://" ++ n ++ ":443" ++ pa ++ "?" ++ q ++ "#" ++ f).toList
        = 'h' :: 't' :: 't' :: 'p' :: 's' :: ':' :: '/' :: '/' ::
            ((n.toList ++ [':', '4', '4', '3'])
              ++ (pa.toList ++ '?' :: (q.toList ++ '#' :: f.toList))) := by
      simp only [strToList_append, show "https".toList = ['h', 't', 't', 'p', 's'] from rfl,
        show "://".toList = [':', '/', '/'] from rfl,
        show ":443".toList = [':', '4', '4', '3'] from rfl,
        show "?".toList = ['?'] from rfl, show "#".toList = ['#'] from rfl, List.append_assoc]
      rfl
    rw [urlparse_def, hfl, splitSchemeCs_https]
    have hblock := takeWhile_notStop_block n.toList pa.toList (q.toList ++ '#' :: f.toList)
      hn hhead
    have hnet : splitNetlocCs ('/' :: '/' ::
        ((n.toList ++ [':', '4', '4', '3'])
          ++ (pa.toList ++ '?' :: (q.toList ++ '#' :: f.toList))))
        = (n.toList ++ [':', '4', '4', '3'],
            pa.toList ++ '?' :: (q.toList ++ '#' :: f.toList)) := by
      rw [splitNetlocCs_slashes, hblock.1, hblock.2]
    rw [hnet]
    have hassoc : pa.toList ++ '?' :: (q.toList ++ '#' :: f.toList)
        = (pa.toList ++ '?' :: q.toList) ++ '#' :: f.toList := by
      simp [List.append_assoc]
    rw [hassoc, splitAtChar_append '#' _ _ hb1]
    rw [splitAtChar_append '?' _ _ hpq]
    rfl

/-- C8 counterexample: a base URL that declares the explicit port `0` is
falsy in the port check, so no `:443` rewrite happens for an absolute https
path without a port, and the containment check (which then fails) runs on the
unrewritten path. -/
theorem portNormalize_zero_port :
    portOf (urlparse "https://h:0").netloc = some 0 ∧
    isAbsolute "https://h/x" = true ∧
    (urlparse "https://h/x").scheme = "https" ∧
    portOf (urlparse "https://h/x").netloc = none ∧
    portNormalize ⟨"https://h:0", none, none⟩ "https://h/x" = "https://h/x" ∧
    strContains "https://h/x" ":443" = false ∧
    buildRequestUrl ⟨"https://h:0", none, none⟩ "https://h/x" none
      = .error (.valueError ("Request url \"https://h/x\" does not contain base url \""
          ++ "https://h:0" ++ "\" (possible security issue)")) := by
  refine ⟨by decide, by decide, by decide, by decide, by decide, by decide, rfl⟩

/-- C8 amended: for every absolute path with scheme `https` and no explicit
port, when the base URL declares an explicit non-zero port, the
port-normalisation step rewrites the path to carry `:443` (the rewritten
string parses back to scheme `https`, the original netloc extended by `:443`,
and the original path, query and fragment unchanged), and the containment
check of URL building runs on the rewritten path. -/
theorem portNormalize_https_rewrite (c : Client) (p : String) (params : Option Params)
    (bp : Nat)
    (hbp : portOf (urlparse c.url).netloc = some bp) (hbp0 : bp ≠ 0)
    (hscheme : (urlparse p).scheme = "https")
    (hport : portOf (urlparse p).netloc = none)
    (habs : isAbsolute p = true) :
    urlparse (portNormalize c p)
      = ⟨"https", (urlparse p).netloc ++ ":443", (urlparse p).path, (urlparse p).query,
          (urlparse p).fragment⟩ ∧
    strContains (portNormalize c p) ":443" = true ∧
    (strContains (rstripSlashes (portNormalize c p)) (rstripSlashes c.url) = true →
      buildRequestUrl c p params = .ok (portNormalize c p)) := by
  have hcond0 : (portOf (urlparse c.url).netloc).getD 0 ≠ 0 := by
    rw [hbp]
    simpa using hbp0
  have hne : (urlparse p).netloc ≠ "" := by
    simpa [isAbsolute] using habs
  have hpn : portNormalize c p
      = (if (urlparse p).fragment ≠ "" then
          "https" ++ "://" ++ (urlparse p).netloc ++ ":443" ++ (urlparse p).path ++ "?"
            ++ (urlparse p).query ++ "#" ++ (urlparse p).fragment
        else "https" ++ "://" ++ (urlparse p).netloc ++ ":443" ++ (urlparse p).path ++ "?"
            ++ (urlparse p).query) := by
    unfold portNormalize
    rw [if_pos hcond0, if_pos ⟨hport, hscheme⟩, hscheme]
  have hrebuild := urlparse_rebuild (urlparse p).netloc (urlparse p).path
    (urlparse p).query (urlparse p).fragment
    (urlparse_netloc_no_stop p) (urlparse_path_ne_quest p) (urlparse_path_ne_hash p)
    (urlparse_query_ne_hash p) (urlparse_path_head p hne)
  refine ⟨?_, ?_, fun hc => ?_⟩
  · rw [hpn]
    exact hrebuild
  · have hshape : ∃ pre suf,
        (portNormalize c p).toList = pre ++ ([':', '4', '4', '3'] ++ suf) := by
      rw [hpn]
      by_cases hfr : (urlparse p).fragment ≠ ""
      · rw [if_pos hfr]
        exact ⟨("https" ++ "://" ++ (urlparse p).netloc).toList,
          ((urlparse p).path ++ "?" ++ (urlparse p).query ++ "#"
            ++ (urlparse p).fragment).toList,
          by simp [strToList_append, show (":443").toList = [':', '4', '4', '3'] from rfl,
            List.append_assoc]⟩
      · rw [if_neg hfr]
        exact ⟨("https" ++ "://" ++ (urlparse p).netloc).toList,
          ((urlparse p).path ++ "?" ++ (urlparse p).query).toList,
          by simp [strToList_append, show (":443").toList = [':', '4', '4', '3'] from rfl,
            List.append_assoc]⟩
    obtain ⟨pre, suf, hshape⟩ := hshape
    unfold strContains
    rw [hshape]
    exact hasSubList_middle pre [':', '4', '4', '3'] suf
  · simp only [buildRequestUrl, habs, if_true]
    simp [hc]

/-- Witness for the amended C8 at a concrete base URL with port 8080 and a
concrete https path with query and fragment. -/
theorem portNormalize_https_rewrite_witness :
    urlparse (portNormalize ⟨"https://srv:8080", none, none⟩ "https://srv/Patient?x=1#f")
      = ⟨"https", "srv" ++ ":443", "/Patient", "x=1", "f"⟩ ∧
    strContains (portNormalize ⟨"https://srv:8080", none, none⟩ "https://srv/Patient?x=1#f")
      ":443" = true := by
  have h := portNormalize_https_rewrite ⟨"https://srv:8080", none, none⟩
    "https://srv/Patient?x=1#f" none 8080 (by decide) (by decide) (by decide) (by decide)
    (by decide)
  have hu : urlparse "https://srv/Patient?x=1#f"
      = ⟨"https", "srv", "/Patient", "x=1", "f"⟩ := by decide
  rw [hu] at h
  exact ⟨h.1, h.2.1⟩

end FhirPy
